import Mathlib

/-!
Verification of the IR-DA text-processing and retrieval core.

The development shallowly embeds the Python sources:
  - `src/text_processing/freq_models.py` (Pair, TwoGram, Frequency),
  - `src/text_processing/freq_counter.py` (compute_word_freq, compute_twogram_freq),
  - `src/text_processing/freq_utils.py` (print_frequencies),
  - `src/info_retrieval/retrieval.py` (LegoCorpus tf-idf and top-k selection).

Pure functions become Lean functions; Python dict insertion order is modelled
explicitly; Python list.sort (stable, driven by the lt dunder) is modelled by a
stable insertion sort; raising constructors return Except values.
-/

namespace IRDA

/-! ## Python stable sort

Python list.sort and sorted are stable and consult only the lt comparison.
A stable binary insertion sort has the same input-output behaviour: each
element is inserted into the already-sorted prefix, going past every element
it is not strictly less than, so ties keep their original relative order.
`List.orderedInsert` from Mathlib has exactly the insertion step shape.
-/

def pySort {α : Type} (lt : α → α → Bool) (l : List α) : List α :=
  l.foldl (fun acc x => List.orderedInsert (fun a b => lt a b = true) x acc) []

theorem pySort_foldl_perm {α : Type} (lt : α → α → Bool) (l acc : List α) :
    List.Perm
      (l.foldl (fun acc x => List.orderedInsert (fun a b => lt a b = true) x acc) acc)
      (acc ++ l) := by
  induction l generalizing acc with
  | nil => simp
  | cons x l ih =>
      simp only [List.foldl_cons]
      refine (ih _).trans ?_
      have h1 : List.Perm
          (List.orderedInsert (fun a b => lt a b = true) x acc ++ l)
          ((x :: acc) ++ l) :=
        List.Perm.append_right l (List.perm_orderedInsert _ x acc)
      refine h1.trans ?_
      exact (List.perm_middle).symm

theorem pySort_perm {α : Type} (lt : α → α → Bool) (l : List α) :
    List.Perm (pySort lt l) l := by
  simpa [pySort] using pySort_foldl_perm lt l []

theorem pairwise_orderedInsert {α : Type} (lt : α → α → Bool)
    (hasym : ∀ a b, lt a b = true → ¬ lt b a = true)
    (htrans : ∀ a b c, lt a b = true → lt b c = true → lt a c = true)
    (x : α) :
    ∀ l : List α, l.Pairwise (fun a b => ¬ lt b a = true) →
      (List.orderedInsert (fun a b => lt a b = true) x l).Pairwise
        (fun a b => ¬ lt b a = true) := by
  intro l
  induction l with
  | nil => intro _; simp [List.orderedInsert]
  | cons y ys ih =>
      intro hp
      rw [List.pairwise_cons] at hp
      obtain ⟨hy, hys⟩ := hp
      by_cases h : lt x y = true
      · have hins : List.orderedInsert (fun a b => lt a b = true) x (y :: ys)
            = x :: y :: ys := by
          simp [List.orderedInsert, h]
        rw [hins]
        refine List.pairwise_cons.mpr ⟨?_, List.pairwise_cons.mpr ⟨hy, hys⟩⟩
        intro z hz
        rcases List.mem_cons.mp hz with rfl | hz
        · exact hasym x z h
        · intro hzx
          exact (hy z hz) (htrans z x y hzx h)
      · have : List.orderedInsert (fun a b => lt a b = true) x (y :: ys)
            = y :: List.orderedInsert (fun a b => lt a b = true) x ys := by
          simp [List.orderedInsert, h]
        rw [this]
        refine List.pairwise_cons.mpr ⟨?_, ih hys⟩
        intro z hz
        rcases (List.mem_orderedInsert _).mp hz with rfl | hz
        · exact h
        · exact hy z hz

theorem pySort_pairwise {α : Type} (lt : α → α → Bool)
    (hasym : ∀ a b, lt a b = true → ¬ lt b a = true)
    (htrans : ∀ a b c, lt a b = true → lt b c = true → lt a c = true)
    (l : List α) :
    (pySort lt l).Pairwise (fun a b => ¬ lt b a = true) := by
  suffices h : ∀ acc : List α, acc.Pairwise (fun a b => ¬ lt b a = true) →
      (l.foldl (fun acc x => List.orderedInsert (fun a b => lt a b = true) x acc)
        acc).Pairwise (fun a b => ¬ lt b a = true) by
    exact h [] (by simp)
  induction l with
  | nil => intro acc hacc; simpa using hacc
  | cons x l ih =>
      intro acc hacc
      simp only [List.foldl_cons]
      exact ih _ (pairwise_orderedInsert lt hasym htrans x acc hacc)

/-! ## Python dict key order

A Python dict keeps its keys in insertion order; building a dict by iterating
over a list and writing every element gives the keys in first-occurrence
order.  `dictKeys` models the key list of such a dict.
-/

def dictKeys {α : Type} [DecidableEq α] (l : List α) : List α :=
  l.foldl (fun acc t => if t ∈ acc then acc else acc ++ [t]) []

theorem dictKeys_foldl_mem {α : Type} [DecidableEq α] (l : List α) (x : α) :
    ∀ acc : List α,
      (x ∈ l.foldl (fun acc t => if t ∈ acc then acc else acc ++ [t]) acc
        ↔ x ∈ acc ∨ x ∈ l) := by
  induction l with
  | nil => intro acc; simp
  | cons t l ih =>
      intro acc
      simp only [List.foldl_cons]
      rw [ih]
      by_cases h : t ∈ acc
      · simp only [if_pos h]
        constructor
        · rintro (hx | hx)
          · exact Or.inl hx
          · exact Or.inr (List.mem_cons_of_mem t hx)
        · rintro (hx | hx)
          · exact Or.inl hx
          · rcases List.mem_cons.mp hx with rfl | hx
            · exact Or.inl h
            · exact Or.inr hx
      · simp only [if_neg h, List.mem_append, List.mem_singleton]
        constructor
        · rintro ((hx | rfl) | hx)
          · exact Or.inl hx
          · exact Or.inr (List.mem_cons_self _ _)
          · exact Or.inr (List.mem_cons_of_mem t hx)
        · rintro (hx | hx)
          · exact Or.inl (Or.inl hx)
          · rcases List.mem_cons.mp hx with rfl | hx
            · exact Or.inl (Or.inr rfl)
            · exact Or.inr hx

theorem mem_dictKeys {α : Type} [DecidableEq α] (l : List α) (x : α) :
    x ∈ dictKeys l ↔ x ∈ l := by
  rw [dictKeys, dictKeys_foldl_mem]
  simp

theorem dictKeys_foldl_nodup {α : Type} [DecidableEq α] (l : List α) :
    ∀ acc : List α, acc.Nodup →
      (l.foldl (fun acc t => if t ∈ acc then acc else acc ++ [t]) acc).Nodup := by
  induction l with
  | nil => intro acc h; simpa using h
  | cons t l ih =>
      intro acc hacc
      simp only [List.foldl_cons]
      by_cases h : t ∈ acc
      · rw [if_pos h]; exact ih acc hacc
      · rw [if_neg h]
        refine ih _ ?_
        simp [List.nodup_append, hacc, h]

theorem dictKeys_nodup {α : Type} [DecidableEq α] (l : List α) :
    (dictKeys l).Nodup :=
  dictKeys_foldl_nodup l [] (by simp)

theorem dictKeys_toFinset {α : Type} [DecidableEq α] (l : List α) :
    (dictKeys l).toFinset = l.toFinset := by
  ext x
  simp [List.mem_toFinset, mem_dictKeys]

/-! ## Frequency records of the counting engine (freq_models.py, freq_counter.py)

`compute_word_freq` builds Frequency records whose subject is a token string;
`compute_twogram_freq` builds records whose subject is a TwoGram of two
adjacent tokens.  Both TwoGram slots are non-None strings there, and TwoGram
equality and hashing are structural over the two slots, so such a TwoGram is
modelled by a pair of strings.  The generic record is `Freq`; the count is a
natural number (Frequency construction enforces a non-negative int).
-/

structure Freq (α : Type) where
  tok : α
  cnt : Nat
deriving DecidableEq, Repr

/-- Number of occurrences of `x` in `l`; this is the final value the counting
loop `d[k] = d.get(k, 0) + 1` leaves at key `x`. -/
def pyCount {α : Type} [DecidableEq α] (x : α) (l : List α) : Nat :=
  l.countP (fun y => decide (y = x))

theorem pyCount_eq_count {α : Type} [DecidableEq α] (x : α) (l : List α) :
    pyCount x l = @List.count α instBEqOfDecidableEq x l := rfl

/-- `Frequency._compare_frequency` for two genuine Frequency records: -1 when
self sorts first (higher count, or equal count and lower subject), 0 on
structural equality, 1 otherwise.  `slt` is the subject lt comparison. -/
def compareFrequency {α : Type} [DecidableEq α] (slt : α → α → Bool)
    (f g : Freq α) : Int :=
  if g.cnt < f.cnt then -1
  else if f.cnt = g.cnt then
    if f.tok = g.tok then 0
    else if slt f.tok g.tok then -1
    else 1
  else 1

/-- `Frequency.__lt__`: true exactly when the comparator yields -1. -/
def freqLt {α : Type} [DecidableEq α] (slt : α → α → Bool) (f g : Freq α) : Bool :=
  decide (compareFrequency slt f g = -1)

/-- String lt as used by Python on lowercase tokens: lexicographic on code
points, i.e. the lexicographic order of the character lists. -/
def strLt (a b : String) : Bool := decide (a.data < b.data)

theorem strLt_iff (a b : String) : strLt a b = true ↔ a < b := by
  unfold strLt
  rw [decide_eq_true_iff]
  exact String.lt_iff_toList_lt.symm

/-- `TwoGram._compare_token_pairs` specialised to the string-slotted TwoGrams
made by `compute_twogram_freq`: compare first slots, then second slots; the
result is -1 exactly on lexicographic strictly-less. -/
def tgLt (p q : String × String) : Bool :=
  strLt p.1 q.1 || (decide (p.1 = q.1) && strLt p.2 q.2)

/-- `compute_word_freq` from freq_counter.py.  A `none` argument models the
Python `None`; the falsy check on an empty list is the first guard.  The
counting loop leaves the dict with one key per distinct token, in first
occurrence order, whose value is the number of occurrences; the second loop
emits one Frequency per key; `freq_list.sort()` is the stable Python sort
driven by `Frequency.__lt__`. -/
def compute_word_freq (tokens : Option (List String)) : List (Freq String) :=
  match tokens with
  | none => []
  | some ts =>
      if ts = [] then []
      else
        let freq_list := (dictKeys ts).map (fun t => Freq.mk t (pyCount t ts))
        pySort (freqLt strLt) freq_list

/-- The TwoGram formed at every consecutive index pair of the token list:
the loop `for n in range(len(tokens) - 1)` pairs index n with index n+1. -/
def pairsOf (ts : List String) : List (String × String) :=
  ts.zip ts.tail

/-- `compute_twogram_freq` from freq_counter.py, with the same dict and sort
modelling as `compute_word_freq`; the guard there is written
`tokens == [] or tokens is None`. -/
def compute_twogram_freq (tokens : Option (List String)) : List (Freq (String × String)) :=
  match tokens with
  | none => []
  | some ts =>
      if ts = [] then []
      else
        let tgram_list := (dictKeys (pairsOf ts)).map
          (fun p => Freq.mk p (pyCount p (pairsOf ts)))
        pySort (freqLt tgLt) tgram_list

example : compute_word_freq (some ["this", "sentence", "repeats", "the", "word", "sentence"])
    = [⟨"sentence", 2⟩, ⟨"repeats", 1⟩, ⟨"the", 1⟩, ⟨"this", 1⟩, ⟨"word", 1⟩] := by
  decide

example : compute_twogram_freq (some ["you", "think", "you", "know", "how", "you", "think"])
    = [⟨("you", "think"), 2⟩, ⟨("how", "you"), 1⟩, ⟨("know", "how"), 1⟩,
       ⟨("think", "you"), 1⟩, ⟨("you", "know"), 1⟩] := by
  decide

/-! ## C1: compute_word_freq -/

theorem freqLt_strLt_iff (f g : Freq String) :
    freqLt strLt f g = true ↔ (g.cnt < f.cnt ∨ (f.cnt = g.cnt ∧ f.tok < g.tok)) := by
  unfold freqLt compareFrequency
  rw [decide_eq_true_iff]
  split_ifs with h1 h2 h3 h4
  · simp [h1]
  · rw [false_iff]
    rintro (h | ⟨_, h⟩)
    · exact h1 h
    · rw [h3] at h; exact lt_irrefl _ h
  · rw [strLt_iff] at h4
    simp [h1, h2, h4]
  · rw [strLt_iff] at h4
    constructor
    · intro h; exact absurd h (by decide)
    · rintro (h | ⟨_, h⟩)
      · exact absurd h h1
      · exact absurd h h4
  · constructor
    · intro h; exact absurd h (by decide)
    · rintro (h | ⟨h, _⟩)
      · exact absurd h h1
      · exact absurd h h2

theorem freqLt_strLt_asym (a b : Freq String) :
    freqLt strLt a b = true → ¬ freqLt strLt b a = true := by
  rw [freqLt_strLt_iff, freqLt_strLt_iff]
  rintro (h | ⟨he, hs⟩) (h' | ⟨he', hs'⟩)
  · omega
  · omega
  · omega
  · exact absurd hs' (not_lt_of_lt hs)

theorem freqLt_strLt_trans (a b c : Freq String) :
    freqLt strLt a b = true → freqLt strLt b c = true → freqLt strLt a c = true := by
  rw [freqLt_strLt_iff, freqLt_strLt_iff, freqLt_strLt_iff]
  rintro (h | ⟨he, hs⟩) (h' | ⟨he', hs'⟩)
  · exact Or.inl (by omega)
  · exact Or.inl (by omega)
  · exact Or.inl (by omega)
  · exact Or.inr ⟨by omega, lt_trans hs hs'⟩

/-- C1: for every non-None, non-empty token list, `compute_word_freq` returns
exactly one Frequency per distinct token (the result subjects are distinct and
are exactly the distinct input tokens), each count is the number of
occurrences of its token in the input, the counts sum to the input length,
and the result is sorted by descending count with ties by ascending token;
a None or empty input gives the empty list. -/
theorem c1_compute_word_freq_spec (ts : List String) (hne : ts ≠ []) :
    compute_word_freq none = [] ∧
    compute_word_freq (some []) = [] ∧
    ((compute_word_freq (some ts)).map Freq.tok).Nodup ∧
    (∀ t : String, t ∈ (compute_word_freq (some ts)).map Freq.tok ↔ t ∈ ts) ∧
    (∀ f ∈ compute_word_freq (some ts), f.cnt = pyCount f.tok ts) ∧
    ((compute_word_freq (some ts)).map Freq.cnt).sum = ts.length ∧
    (compute_word_freq (some ts)).Pairwise
      (fun f g => g.cnt < f.cnt ∨ (f.cnt = g.cnt ∧ f.tok < g.tok)) := by
  have hr : compute_word_freq (some ts)
      = pySort (freqLt strLt) ((dictKeys ts).map (fun t => Freq.mk t (pyCount t ts))) := by
    simp [compute_word_freq, if_neg hne]
  have hperm : List.Perm (compute_word_freq (some ts))
      ((dictKeys ts).map (fun t => Freq.mk t (pyCount t ts))) := by
    rw [hr]; exact pySort_perm _ _
  have hmapperm : List.Perm ((compute_word_freq (some ts)).map Freq.tok)
      (dictKeys ts) := by
    have h := hperm.map Freq.tok
    rw [List.map_map] at h
    have h2 : (Freq.tok ∘ fun t => Freq.mk t (pyCount t ts)) = id := rfl
    rw [h2, List.map_id] at h
    exact h
  have hnodup : ((compute_word_freq (some ts)).map Freq.tok).Nodup :=
    (hmapperm.nodup_iff).mpr (dictKeys_nodup ts)
  have hmem : ∀ t : String, t ∈ (compute_word_freq (some ts)).map Freq.tok ↔ t ∈ ts := by
    intro t
    rw [hmapperm.mem_iff, mem_dictKeys]
  have hcnt : ∀ f ∈ compute_word_freq (some ts), f.cnt = pyCount f.tok ts := by
    intro f hf
    have hf' := hperm.mem_iff.mp hf
    obtain ⟨t, _, rfl⟩ := List.mem_map.mp hf'
    rfl
  have hsum : ((compute_word_freq (some ts)).map Freq.cnt).sum = ts.length := by
    have h1 := (hperm.map Freq.cnt).sum_eq
    rw [h1]
    rw [List.map_map]
    have h2 : (Freq.cnt ∘ fun t => Freq.mk t (pyCount t ts)) = fun t => pyCount t ts := rfl
    rw [h2]
    rw [← List.sum_toFinset _ (dictKeys_nodup ts)]
    rw [dictKeys_toFinset]
    exact List.sum_toFinset_count_eq_length ts
  have hpw : (compute_word_freq (some ts)).Pairwise
      (fun f g => g.cnt < f.cnt ∨ (f.cnt = g.cnt ∧ f.tok < g.tok)) := by
    have hsorted : (compute_word_freq (some ts)).Pairwise
        (fun a b => ¬ freqLt strLt b a = true) := by
      rw [hr]
      exact pySort_pairwise _ freqLt_strLt_asym freqLt_strLt_trans _
    have hne' : (compute_word_freq (some ts)).Pairwise
        (fun a b => a.tok ≠ b.tok) := by
      rw [← List.pairwise_map (f := Freq.tok)]
      exact hnodup
    refine (hsorted.and hne').imp ?_
    rintro a b ⟨hnl, hab⟩
    rw [freqLt_strLt_iff] at hnl
    push_neg at hnl
    rcases Nat.lt_trichotomy b.cnt a.cnt with h | h | h
    · exact Or.inl h
    · refine Or.inr ⟨h.symm, ?_⟩
      have hle2 := hnl.2 h
      rcases lt_or_gt_of_ne hab with hl | hl
      · exact hl
      · exact absurd hl (not_lt_of_le hle2)
    · exact absurd h (Nat.not_lt.mpr hnl.1)
  exact ⟨rfl, rfl, hnodup, hmem, hcnt, hsum, hpw⟩

theorem c1_compute_word_freq_spec_witness :
    ((compute_word_freq (some ["b", "a", "b"])).map Freq.cnt).sum
      = (["b", "a", "b"] : List String).length := by
  have h := c1_compute_word_freq_spec ["b", "a", "b"] (by decide)
  exact h.2.2.2.2.2.1

/-! ## C4: compute_twogram_freq -/

theorem pairsOf_cons_cons (t u : String) (rest : List String) :
    pairsOf (t :: u :: rest) = (t, u) :: pairsOf (u :: rest) := by
  simp [pairsOf]

theorem pairsOf_getElem (ts : List String) :
    ∀ (i : Nat) (a b : String), ts[i]? = some a → ts[i + 1]? = some b →
      (pairsOf ts)[i]? = some (a, b) := by
  induction ts with
  | nil => intro i a b h _; simp at h
  | cons t ts ih =>
      intro i a b ha hb
      cases ts with
      | nil =>
          rcases i with _ | j <;> simp at hb
      | cons u ts' =>
          rw [pairsOf_cons_cons]
          rcases i with _ | j
          · simp only [List.getElem?_cons_zero, Option.some.injEq] at ha
            rw [List.getElem?_cons_succ, List.getElem?_cons_zero] at hb
            rw [Option.some.injEq] at hb
            subst ha; subst hb
            simp
          · rw [List.getElem?_cons_succ] at ha
            rw [List.getElem?_cons_succ] at hb
            have h := ih j a b ha hb
            simpa using h

theorem pairsOf_length (ts : List String) :
    (pairsOf ts).length = ts.length - 1 := by
  simp [pairsOf]

/-- C4: for a token list of length at least 2, `compute_twogram_freq` counts
the TwoGram formed at every consecutive index pair of the flattened input:
the result has one Frequency per distinct adjacent pair, each count equal to
the number of occurrences of that pair, and the counts sum to n - 1; a None
input, an empty input, or a single token gives the empty list. -/
theorem c4_compute_twogram_freq_spec (ts : List String) (hlen : 2 ≤ ts.length) :
    compute_twogram_freq none = [] ∧
    compute_twogram_freq (some []) = [] ∧
    (∀ t : String, compute_twogram_freq (some [t]) = []) ∧
    (∀ (i : Nat) (a b : String), ts[i]? = some a → ts[i + 1]? = some b →
      (pairsOf ts)[i]? = some (a, b)) ∧
    (pairsOf ts).length = ts.length - 1 ∧
    ((compute_twogram_freq (some ts)).map Freq.tok).Nodup ∧
    (∀ p : String × String,
      p ∈ (compute_twogram_freq (some ts)).map Freq.tok ↔ p ∈ pairsOf ts) ∧
    (∀ f ∈ compute_twogram_freq (some ts), f.cnt = pyCount f.tok (pairsOf ts)) ∧
    ((compute_twogram_freq (some ts)).map Freq.cnt).sum = ts.length - 1 := by
  have hne : ts ≠ [] := by
    intro h; rw [h] at hlen; simp at hlen
  have hr : compute_twogram_freq (some ts)
      = pySort (freqLt tgLt)
          ((dictKeys (pairsOf ts)).map (fun p => Freq.mk p (pyCount p (pairsOf ts)))) := by
    simp [compute_twogram_freq, if_neg hne]
  have hperm : List.Perm (compute_twogram_freq (some ts))
      ((dictKeys (pairsOf ts)).map (fun p => Freq.mk p (pyCount p (pairsOf ts)))) := by
    rw [hr]; exact pySort_perm _ _
  have hmapperm : List.Perm ((compute_twogram_freq (some ts)).map Freq.tok)
      (dictKeys (pairsOf ts)) := by
    have h := hperm.map Freq.tok
    rw [List.map_map] at h
    have h2 : (Freq.tok ∘ fun p => Freq.mk p (pyCount p (pairsOf ts))) = id := rfl
    rw [h2, List.map_id] at h
    exact h
  refine ⟨rfl, rfl, fun t => rfl, pairsOf_getElem ts, pairsOf_length ts, ?_, ?_, ?_, ?_⟩
  · exact (hmapperm.nodup_iff).mpr (dictKeys_nodup _)
  · intro p
    rw [hmapperm.mem_iff, mem_dictKeys]
  · intro f hf
    have hf' := hperm.mem_iff.mp hf
    obtain ⟨p, _, rfl⟩ := List.mem_map.mp hf'
    rfl
  · have h1 := (hperm.map Freq.cnt).sum_eq
    rw [h1, List.map_map]
    have h2 : (Freq.cnt ∘ fun p => Freq.mk p (pyCount p (pairsOf ts)))
        = fun p => pyCount p (pairsOf ts) := rfl
    rw [h2]
    rw [← List.sum_toFinset _ (dictKeys_nodup _)]
    rw [dictKeys_toFinset]
    rw [← pairsOf_length ts]
    exact List.sum_toFinset_count_eq_length (pairsOf ts)

theorem c4_compute_twogram_freq_spec_witness :
    ((compute_twogram_freq (some ["a", "b", "a", "b"])).map Freq.cnt).sum
      = (["a", "b", "a", "b"] : List String).length - 1 := by
  have h := c4_compute_twogram_freq_spec ["a", "b", "a", "b"] (by decide)
  exact h.2.2.2.2.2.2.2.2

/-! ## C9: print_frequencies (freq_utils.py)

The formatter writes to a text stream; the model returns the full written
string.  The count loop accumulates the total, `len(set(freqs))` is the
number of distinct records under the structural Frequency equality
(equal token and equal count), and each record is rendered on its own line,
in the order given, with no sorting.  Python `f-string` right justification
of width 6 pads the decimal representation on the left with spaces.
-/

/-- Width-6 right justification of a natural number, as the format spec
`:>6` does for a decimal count. -/
def rjust6 (n : Nat) : String :=
  String.mk (List.replicate (6 - (toString n).length) ' ') ++ toString n

/-- `print_frequencies` from freq_utils.py; `render` is the `__str__` of the
subject type (identity for plain tokens). -/
def print_frequencies {α : Type} [DecidableEq α] (render : α → String)
    (freqs : List (Freq α)) : String :=
  let total_items := freqs.foldl (fun acc f => acc + f.cnt) 0
  let unique_items := freqs.dedup.length
  rjust6 total_items ++ " total items\n" ++
    rjust6 unique_items ++ " unique items\n\n" ++
    String.join (freqs.map (fun f => rjust6 f.cnt ++ " " ++ render f.tok ++ "\n"))

theorem foldl_add_cnt {α : Type} (freqs : List (Freq α)) :
    ∀ n : Nat, freqs.foldl (fun acc f => acc + f.cnt) n = n + (freqs.map Freq.cnt).sum := by
  induction freqs with
  | nil => intro n; simp
  | cons f fs ih =>
      intro n
      simp only [List.foldl_cons, List.map_cons, List.sum_cons]
      rw [ih]
      omega

/-- C9: `print_frequencies` writes the width-6 right-justified sum of all
counts labelled total items, then the width-6 right-justified number of
structurally distinct Frequency records labelled unique items, then a blank
line, then one line per record, width-6 right-justified count, a space and
the rendered subject, in the input order with no re-sorting. -/
theorem c9_print_frequencies_spec {α : Type} [DecidableEq α]
    (render : α → String) (freqs : List (Freq α)) :
    print_frequencies render freqs
      = rjust6 ((freqs.map Freq.cnt).sum) ++ " total items\n" ++
        rjust6 freqs.toFinset.card ++ " unique items\n\n" ++
        String.join (freqs.map (fun f => rjust6 f.cnt ++ " " ++ render f.tok ++ "\n")) := by
  unfold print_frequencies
  rw [foldl_add_cnt, List.card_toFinset]
  simp

/-! ## Retrieval model (retrieval.py)

`LegoCorpus` turns every LegoSet into a `Document(title=set_name,
words=[prod_long_desc])` and overrides the term, document-frequency and
tf-idf computations.  The superclass `Corpus`, `Document` and `Vector`
(src/vector_space/vector_space_models.py) are not part of the sources, so
the pieces of them that the overrides use are modelled from the spec.
Scores and weights use rationals with an abstract base-10 logarithm
parameter standing for `math.log10`, so the branch structure stays exact
and executable while the numeric value is kept symbolic.
-/

structure Document where
  title : String
  words : List String
deriving DecidableEq, Repr

/-- Modelled from the spec: `Document.tf` of the missing vector_space
superclass, the raw count of occurrences of the term within the document
content (the `rawCount` of section 4.4). -/
def Document.tf (d : Document) (term : String) : Nat :=
  pyCount term d.words

/-- `LegoCorpus._compute_terms` collects every word of every document and
indexes the distinct ones; `_build_index_dict` is not in the sources and is
modelled from the spec as the global term vocabulary, one entry per distinct
term.  Membership in the vocabulary is what the tf-idf code consults. -/
def corpusTerms (docs : List Document) : List String :=
  dictKeys (docs.foldr (fun d acc => d.words ++ acc) [])

/-- `LegoCorpus._compute_df`: the number of documents whose word list
contains the term (`sum(1 if check_membership(term, doc) else 0 ...)`). -/
def compute_df (docs : List Document) (term : String) : Nat :=
  (docs.map (fun d => if term ∈ d.words then 1 else 0)).sum

/-- `LegoCorpus._compute_tf_idf`.  `self._dfs` is modelled from the spec as
the per-term document-frequency table keyed by the vocabulary, so
`term in dfs.keys()` is vocabulary membership and `dfs.get(term)` is
`compute_df`.  The Python function returns the product when the inner guard
holds, `0.0` when the term is not a key of the table, and otherwise falls
off the end of the function, which in Python produces `None`: the `Option`
result records exactly that, `none` standing for the Python `None`. -/
def compute_tf_idf (log10 : ℚ → ℚ) (docs : List Document) (term : String)
    (doc : Document) : Option ℚ :=
  if term ∈ corpusTerms docs then
    let df : ℚ := (compute_df docs term : ℚ)
    let tf := log10 (1 + (doc.tf term : ℚ))
    let idf := log10 ((docs.length : ℚ) / (1 + df))
    let tf_idf := tf * idf
    if term ∈ corpusTerms docs ∧ 1 < docs.length then some tf_idf else none
  else
    some 0

/-- The Python `sorted(..., key=lambda item: item[1], reverse=True)`
comparison on (title, score) entries: an entry sorts strictly earlier
exactly when its score is strictly greater. -/
def scoreGt (a b : String × ℚ) : Bool :=
  decide (b.2 < a.2)

/-- `LegoCorpus.get_top_k_sets`: sort the (title, score) items of the query
result by descending score (stable), keep the first k, and return the
documents of the corpus whose title is among the kept keys, in corpus
order. -/
def get_top_k_sets (docs : List Document) (query_result : List (String × ℚ))
    (k : Nat) : List Document :=
  let sorted_result := (pySort scoreGt query_result).take k
  docs.filter (fun d => decide (d.title ∈ sorted_result.map Prod.fst))

/-- The relevance score the query result assigns to a title (0 when the
title is absent); used only to state ordering properties of the top-k
selection. -/
def scoreOf (query_result : List (String × ℚ)) (t : String) : ℚ :=
  ((query_result.find? (fun p => decide (p.1 = t))).map Prod.snd).getD 0

/-! ## C2: the tf-idf computation -/

/-- C2 (code bug evidence): on a corpus with exactly one document and a term
that is present in the vocabulary, `_compute_tf_idf` does not return `0.0`:
both guards of the vocabulary branch are reached, the inner condition fails
because the corpus has one document, and the function falls off its end,
yielding the Python `None` (here `none`).  A term absent from the vocabulary
does give `0.0`, and with more than one document the product of the two
log-weights is returned. -/
theorem c2_tf_idf_single_doc_returns_none :
    (compute_tf_idf (fun q => q)
      [Document.mk "set1" ["lego"]] "lego" (Document.mk "set1" ["lego"]) = none) ∧
    ¬ (compute_tf_idf (fun q => q)
      [Document.mk "set1" ["lego"]] "lego" (Document.mk "set1" ["lego"]) = some 0) ∧
    (compute_tf_idf (fun q => q)
      [Document.mk "set1" ["lego"]] "absent" (Document.mk "set1" ["lego"]) = some 0) ∧
    (∀ log10 : ℚ → ℚ,
      compute_tf_idf log10
          [Document.mk "set1" ["lego"], Document.mk "set2" ["city"]] "lego"
          (Document.mk "set1" ["lego"])
        = some (log10 (1 + ((Document.mk "set1" ["lego"]).tf "lego" : ℚ))
            * log10 ((2 : ℚ)
              / (1 + (compute_df
                  [Document.mk "set1" ["lego"], Document.mk "set2" ["city"]] "lego" : ℚ))))) := by
  refine ⟨by decide, by decide, by decide, ?_⟩
  intro log10
  unfold compute_tf_idf
  rw [if_pos (by decide), if_pos ⟨by decide, by decide⟩]
  norm_num

/-! ## C3: top-k selection -/

/-- C3 counterexample: with two documents A then B, scores A = 0, B = 1 and
k = 2, `get_top_k_sets` returns [A, B] — the corpus order — whose score
sequence 0, 1 is strictly increasing, so the returned entries are not
ordered by non-increasing relevance score as the claim states. -/
theorem c3_top_k_counterexample :
    get_top_k_sets [Document.mk "A" [], Document.mk "B" []]
        [("A", (0 : ℚ)), ("B", (1 : ℚ))] 2
      = [Document.mk "A" [], Document.mk "B" []] ∧
    ¬ (get_top_k_sets [Document.mk "A" [], Document.mk "B" []]
        [("A", (0 : ℚ)), ("B", (1 : ℚ))] 2).Pairwise
        (fun d e => scoreOf [("A", (0 : ℚ)), ("B", (1 : ℚ))] e.title
          ≤ scoreOf [("A", (0 : ℚ)), ("B", (1 : ℚ))] d.title) := by
  decide

/-- C3 amended: when the document titles are distinct (they key the score
dict, so the corpus is used with unique titles), `get_top_k_sets` returns at
most min(k, number of documents) entries, and the returned entries are
exactly the documents whose title is among the first k title keys of the
stable descending-score ordering of the score mapping — but listed in the
order of the corpus document list (a sublist of it), not by score. -/
theorem c3_top_k_amended (docs : List Document) (qr : List (String × ℚ))
    (k : Nat) (hnd : (docs.map Document.title).Nodup) :
    (get_top_k_sets docs qr k).length ≤ min k docs.length ∧
    (get_top_k_sets docs qr k).Sublist docs ∧
    (∀ d : Document, d ∈ get_top_k_sets docs qr k ↔
      d ∈ docs ∧ d.title ∈ ((pySort scoreGt qr).take k).map Prod.fst) := by
  have hsub : (get_top_k_sets docs qr k).Sublist docs := List.filter_sublist docs
  have hmem : ∀ d : Document, d ∈ get_top_k_sets docs qr k ↔
      d ∈ docs ∧ d.title ∈ ((pySort scoreGt qr).take k).map Prod.fst := by
    intro d
    unfold get_top_k_sets
    rw [List.mem_filter, decide_eq_true_iff]
  refine ⟨?_, hsub, hmem⟩
  have h1 : (get_top_k_sets docs qr k).length ≤ docs.length := hsub.length_le
  have hmap : ((get_top_k_sets docs qr k).map Document.title).Sublist
      (docs.map Document.title) := hsub.map Document.title
  have hnd2 : ((get_top_k_sets docs qr k).map Document.title).Nodup :=
    hnd.sublist hmap
  have hsubset : ∀ x, x ∈ (get_top_k_sets docs qr k).map Document.title →
      x ∈ ((pySort scoreGt qr).take k).map Prod.fst := by
    intro x hx
    obtain ⟨d, hd, rfl⟩ := List.mem_map.mp hx
    exact ((hmem d).mp hd).2
  have h2 : (get_top_k_sets docs qr k).length ≤ k := by
    have e1 : (get_top_k_sets docs qr k).length
        = ((get_top_k_sets docs qr k).map Document.title).length := by
      rw [List.length_map]
    have e2 : ((get_top_k_sets docs qr k).map Document.title).length
        = ((get_top_k_sets docs qr k).map Document.title).toFinset.card :=
      (List.toFinset_card_of_nodup hnd2).symm
    have e3 : ((get_top_k_sets docs qr k).map Document.title).toFinset
        ⊆ (((pySort scoreGt qr).take k).map Prod.fst).toFinset := by
      intro x hx
      rw [List.mem_toFinset] at hx
      rw [List.mem_toFinset]
      exact hsubset x hx
    have e4 := Finset.card_le_card e3
    have e5 := List.toFinset_card_le
      (l := ((pySort scoreGt qr).take k).map Prod.fst)
    have e6 : (((pySort scoreGt qr).take k).map Prod.fst).length ≤ k := by
      rw [List.length_map]
      exact (List.length_take _ _).le.trans (Nat.min_le_left _ _)
    omega
  exact Nat.le_min.mpr ⟨h2, h1⟩

theorem c3_top_k_amended_witness :
    (get_top_k_sets [Document.mk "A" []] [("A", (1 : ℚ))] 1).length
        ≤ min 1 ([Document.mk "A" []] : List Document).length ∧
    (get_top_k_sets [Document.mk "A" []] [("A", (1 : ℚ))] 1).Sublist
        [Document.mk "A" []] := by
  have h := c3_top_k_amended [Document.mk "A" []] [("A", (1 : ℚ))] 1 (by decide)
  exact ⟨h.1, h.2.1⟩

/-! ## Dynamic Python values (freq_models.py)

The Pair, TwoGram and Frequency dunder methods accept arbitrary objects, so
their claims are settled over a small universe of runtime values: None,
strings, ints, Pair instances and TwoGram instances.  `PVal.typeTag` is the
runtime type (`type(x)`), on which the TwoGram slot symmetry check operates;
a TwoGram is a distinct runtime type from its superclass Pair.
-/

inductive PVal where
  | vnone : PVal
  | vstr : String → PVal
  | vint : Int → PVal
  | vpair : PVal → PVal → PVal
  | vtwo : PVal → PVal → PVal
deriving DecidableEq, Repr

inductive PyType where
  | noneT | strT | intT | pairT | twoGramT
deriving DecidableEq, Repr

def PVal.typeTag : PVal → PyType
  | .vnone => .noneT
  | .vstr _ => .strT
  | .vint _ => .intT
  | .vpair _ _ => .pairT
  | .vtwo _ _ => .twoGramT

/-- The Python equality operator on this universe.  None, str and int
compare structurally within their own type and are unequal to everything
else (the Pair and TwoGram eq methods return False for them, and their own
eq gives False or NotImplemented).  Two Pairs or two TwoGrams compare
slot-wise (`Pair.__eq__` / `TwoGram.__eq__`).  For a Pair on the left and a
TwoGram on the right, Python tries the reflected operand first because
TwoGram is a subclass of Pair that overrides eq: `TwoGram.__eq__(two, pair)`
returns False (not NotImplemented), so the whole comparison is False; with
the TwoGram on the left its own eq likewise returns False. -/
def pyEqOp : PVal → PVal → Bool
  | .vnone, .vnone => true
  | .vstr s, .vstr t => decide (s = t)
  | .vint m, .vint n => decide (m = n)
  | .vpair a b, .vpair c d => pyEqOp a c && pyEqOp b d
  | .vtwo a b, .vtwo c d => pyEqOp a c && pyEqOp b d
  | _, _ => false

theorem pyEqOp_refl : ∀ v : PVal, pyEqOp v v = true := by
  intro v
  induction v with
  | vnone => rfl
  | vstr s => simp [pyEqOp]
  | vint n => simp [pyEqOp]
  | vpair a b iha ihb => simp [pyEqOp, iha, ihb]
  | vtwo a b iha ihb => simp [pyEqOp, iha, ihb]

/-- `Pair.__eq__` of a Pair with slots `o1`, `o2` applied to `other`: any
Pair instance (including the TwoGram subclass) with equal slots is equal. -/
def pairEqMethod (o1 o2 : PVal) (other : PVal) : Bool :=
  match other with
  | .vpair p q => pyEqOp o1 p && pyEqOp o2 q
  | .vtwo p q => pyEqOp o1 p && pyEqOp o2 q
  | _ => false

/-- `TwoGram.__eq__` of a TwoGram with slots `o1`, `o2` applied to `other`:
only a TwoGram instance can be equal. -/
def twoGramEqMethod (o1 o2 : PVal) (other : PVal) : Bool :=
  match other with
  | .vtwo p q => pyEqOp o1 p && pyEqOp o2 q
  | _ => false

/-! ## C10: Pair vs TwoGram equality -/

/-- C10 counterexample: the claim says `Pair(a, b) == TwoGram(a, b)`
evaluates to True; in fact, because TwoGram subclasses Pair and overrides
eq, Python dispatches that expression to `TwoGram.__eq__(twoGram, pair)`,
which returns False, so the operator yields False. -/
theorem c10_pair_twogram_eq_counterexample :
    pyEqOp (.vpair (.vstr "x") (.vstr "y")) (.vtwo (.vstr "x") (.vstr "y")) = false := by
  decide

/-- C10 amended: the asymmetry lives at the method level — `Pair.__eq__`
accepts a TwoGram with equal slots (True) while `TwoGram.__eq__` rejects a
plain Pair (False) — but the `==` operator itself is symmetric here: both
`Pair(a, b) == TwoGram(a, b)` and `TwoGram(a, b) == Pair(a, b)` evaluate to
False, because Python gives the overriding subclass method priority. -/
theorem c10_pair_twogram_eq_amended (a b : PVal) :
    pairEqMethod a b (.vtwo a b) = true ∧
    twoGramEqMethod a b (.vpair a b) = false ∧
    pyEqOp (.vpair a b) (.vtwo a b) = false ∧
    pyEqOp (.vtwo a b) (.vpair a b) = false := by
  refine ⟨?_, rfl, rfl, rfl⟩
  simp [pairEqMethod, pyEqOp_refl]

/-! ## C6: TwoGram slot reassignment -/

/-- A TwoGram instance: the two slot attributes. -/
structure TwoGramObj where
  o1 : PVal
  o2 : PVal
deriving DecidableEq, Repr

/-- `TwoGram.__init__`: accepts the two tokens when either is None or their
runtime types coincide, otherwise raises ValueError. -/
def mkTwoGram (token1 token2 : PVal) : Except String TwoGramObj :=
  if token1 = .vnone ∨ token2 = .vnone ∨ token1.typeTag = token2.typeTag then
    Except.ok ⟨token1, token2⟩
  else
    Except.error "Two tokens must be of the same type."

/-- The overriding setter for `object1`: accepts `o1` when it is None or
when `type(self._object2) == type(o1)`; note the check is against the type
of the other slot as it currently is, and None has its own runtime type. -/
def setObject1 (g : TwoGramObj) (o1 : PVal) : Except String TwoGramObj :=
  if o1 = .vnone ∨ g.o2.typeTag = o1.typeTag then
    Except.ok ⟨o1, g.o2⟩
  else
    Except.error "Two tokens must be of the same type."

/-- The overriding setter for `object2`, symmetric to `setObject1`. -/
def setObject2 (g : TwoGramObj) (o2 : PVal) : Except String TwoGramObj :=
  if o2 = .vnone ∨ g.o1.typeTag = o2.typeTag then
    Except.ok ⟨g.o1, o2⟩
  else
    Except.error "Two tokens must be of the same type."

/-- C6 counterexample: the claim says assigning a non-None token to one slot
while the other slot is None succeeds.  But `TwoGram("a", None)` is a valid
construction, and reassigning its first slot to the string "b" raises: the
setter compares `type(None)` with `str` and they differ. -/
theorem c6_twogram_setter_counterexample :
    mkTwoGram (.vstr "a") .vnone = Except.ok ⟨.vstr "a", .vnone⟩ ∧
    setObject1 ⟨.vstr "a", .vnone⟩ (.vstr "b")
      = Except.error "Two tokens must be of the same type." := by
  exact ⟨rfl, rfl⟩

/-- C6 amended: reassigning a slot succeeds exactly when the new value is
None or its runtime type equals the current runtime type of the other slot
(None counting as its own type, which matches no non-None value); otherwise
the type-mismatch error is raised.  In particular assigning a non-None value
while the other slot is None fails. -/
theorem c6_twogram_setter_amended (g : TwoGramObj) (v : PVal) :
    (setObject1 g v = Except.ok ⟨v, g.o2⟩
      ↔ (v = .vnone ∨ g.o2.typeTag = v.typeTag)) ∧
    (setObject1 g v = Except.error "Two tokens must be of the same type."
      ↔ ¬ (v = .vnone ∨ g.o2.typeTag = v.typeTag)) ∧
    (setObject2 g v = Except.ok ⟨g.o1, v⟩
      ↔ (v = .vnone ∨ g.o1.typeTag = v.typeTag)) ∧
    (setObject2 g v = Except.error "Two tokens must be of the same type."
      ↔ ¬ (v = .vnone ∨ g.o1.typeTag = v.typeTag)) := by
  unfold setObject1 setObject2
  refine ⟨?_, ?_, ?_, ?_⟩ <;> split_ifs with h <;> simp [h]

/-! ## C8: Frequency construction -/

/-- `Frequency.__init__`: stores the token and count, then validates; a
token that is not a str or TwoGram raises the invalid-subject ValueError,
then a count that is not an int or is negative raises the invalid-count
ValueError; on success the constructed record holds the token and the
integer count. -/
def PVal.isInt : PVal → Bool
  | .vint _ => true
  | _ => false

def PVal.intVal : PVal → Int
  | .vint n => n
  | _ => 0

/-- `Frequency.__init__`: stores the token and count, then validates; a
token that is not a str or TwoGram raises the invalid-subject ValueError,
then a count that is not an int or is negative raises the invalid-count
ValueError; on success the constructed record holds the token and the
integer count. -/
def mkFrequency (token freq : PVal) : Except String (PVal × Int) :=
  if ¬ (token.typeTag = .strT ∨ token.typeTag = .twoGramT) then
    Except.error "A token must either be of type str or TwoGram."
  else if ¬ freq.isInt = true ∨ freq.intVal < 0 then
    Except.error "Frequency must be an integer > 0"
  else
    Except.ok (token, freq.intVal)

/-- C8: constructing a Frequency succeeds exactly when the subject is a str
or a TwoGram and the count is a non-negative integer; otherwise an
invalid-subject-type or invalid-count error is raised and no value is
produced. -/
theorem c8_frequency_construction_spec (token freq : PVal) :
    ((∃ r : PVal × Int, mkFrequency token freq = Except.ok r)
      ↔ ((token.typeTag = .strT ∨ token.typeTag = .twoGramT)
          ∧ ∃ n : Int, freq = .vint n ∧ 0 ≤ n)) ∧
    ((mkFrequency token freq
        = Except.error "A token must either be of type str or TwoGram."
      ∨ mkFrequency token freq
        = Except.error "Frequency must be an integer > 0")
      ↔ ¬ ((token.typeTag = .strT ∨ token.typeTag = .twoGramT)
          ∧ ∃ n : Int, freq = .vint n ∧ 0 ≤ n)) := by
  unfold mkFrequency
  by_cases ht : token.typeTag = .strT ∨ token.typeTag = .twoGramT
  · rw [if_neg (not_not_intro ht)]
    cases freq with
    | vint n =>
        simp only [PVal.isInt, PVal.intVal]
        by_cases hn : n < 0
        · rw [if_pos (Or.inr hn)]
          constructor
          · constructor
            · rintro ⟨r, hr⟩; cases hr
            · rintro ⟨_, m, hm, hle⟩
              rw [PVal.vint.injEq] at hm
              omega
          · constructor
            · rintro _ ⟨_, m, hm, hle⟩
              rw [PVal.vint.injEq] at hm
              omega
            · intro _; exact Or.inr rfl
        · rw [if_neg (by simp [hn])]
          constructor
          · constructor
            · intro _; exact ⟨ht, n, rfl, by omega⟩
            · intro _; exact ⟨(token, n), rfl⟩
          · constructor
            · rintro (h | h) <;> cases h
            · intro hcon; exact absurd ⟨ht, n, rfl, by omega⟩ hcon
    | vnone => simp [PVal.isInt, PVal.intVal, ht]
    | vstr s => simp [PVal.isInt, PVal.intVal, ht]
    | vpair a b => simp [PVal.isInt, PVal.intVal, ht]
    | vtwo a b => simp [PVal.isInt, PVal.intVal, ht]
  · rw [if_pos ht]
    constructor
    · constructor
      · rintro ⟨r, hr⟩; cases hr
      · rintro ⟨h, _⟩; exact absurd h ht
    · constructor
      · rintro _ ⟨h, _⟩; exact absurd h ht
      · intro _; exact Or.inl rfl

/-! ## C7: Pair rendering

`Pair.__str__` first executes `if self._object1 == None: self._object1 =
"None"` (and the same for the second slot) and only then builds the string
from the current slot values; the equality test is the Python operator, true
exactly for the value None itself, and the assignment writes the raw
attribute (no setter runs).  Rendering a nested Pair or TwoGram slot calls
its own str, which performs the same replacement inside it.  `pyStrM`
returns both the object as it is after rendering and the produced string;
`str` of None is the text None, of a string the string itself, of an int its
decimal form. -/
def pyStrM : PVal → PVal × String
  | .vnone => (.vnone, "None")
  | .vstr s => (.vstr s, s)
  | .vint n => (.vint n, toString n)
  | .vpair a b =>
      let ra := pyStrM a
      let rb := pyStrM b
      (.vpair (if a = .vnone then .vstr "None" else ra.1)
              (if b = .vnone then .vstr "None" else rb.1),
       "<" ++ ra.2 ++ ":" ++ rb.2 ++ ">")
  | .vtwo a b =>
      let ra := pyStrM a
      let rb := pyStrM b
      (.vtwo (if a = .vnone then .vstr "None" else ra.1)
             (if b = .vnone then .vstr "None" else rb.1),
       "<" ++ ra.2 ++ ":" ++ rb.2 ++ ">")

/-- Whether the value None occurs anywhere inside a value (in a slot of a
nested pairing, or being the value itself). -/
def hasNone : PVal → Bool
  | .vnone => true
  | .vstr _ => false
  | .vint _ => false
  | .vpair a b => hasNone a || hasNone b
  | .vtwo a b => hasNone a || hasNone b

theorem pyStrM_preserves : ∀ v : PVal, hasNone v = false → (pyStrM v).1 = v := by
  intro v
  induction v with
  | vnone => intro h; cases h
  | vstr s => intro _; rfl
  | vint n => intro _; rfl
  | vpair a b iha ihb =>
      intro h
      rw [hasNone, Bool.or_eq_false_iff] at h
      have hna : a ≠ .vnone := by
        intro ha; rw [ha] at h; exact absurd h.1 (by simp [hasNone])
      have hnb : b ≠ .vnone := by
        intro hb; rw [hb] at h; exact absurd h.2 (by simp [hasNone])
      simp only [pyStrM, if_neg hna, if_neg hnb]
      rw [iha h.1, ihb h.2]
  | vtwo a b iha ihb =>
      intro h
      rw [hasNone, Bool.or_eq_false_iff] at h
      have hna : a ≠ .vnone := by
        intro ha; rw [ha] at h; exact absurd h.1 (by simp [hasNone])
      have hnb : b ≠ .vnone := by
        intro hb; rw [hb] at h; exact absurd h.2 (by simp [hasNone])
      simp only [pyStrM, if_neg hna, if_neg hnb]
      rw [iha h.1, ihb h.2]

/-- C7 counterexample: rendering the Pair (None, "a") produces the correct
text, but replaces the absent first slot by the string "None": the pairing
is mutated by rendering, refuting the frame part of the claim. -/
theorem c7_pair_str_counterexample :
    (pyStrM (.vpair .vnone (.vstr "a"))).2 = "<None:a>" ∧
    (pyStrM (.vpair .vnone (.vstr "a"))).1 = .vpair (.vstr "None") (.vstr "a") ∧
    ¬ (pyStrM (.vpair .vnone (.vstr "a"))).1 = .vpair .vnone (.vstr "a") := by
  refine ⟨rfl, rfl, ?_⟩
  decide

/-- C7 amended: the string form of every Pair is always
`<`, first slot text, `:`, second slot text, `>` with the literal text None
for an absent slot; but rendering leaves the slots unchanged only when no
absent slot occurs anywhere in the pairing — an absent slot is overwritten
with the string "None" by the rendering itself. -/
theorem c7_pair_str_amended (a b : PVal)
    (h : hasNone (PVal.vpair a b) = false) :
    (∀ x y : PVal, (pyStrM (PVal.vpair x y)).2
        = "<" ++ (pyStrM x).2 ++ ":" ++ (pyStrM y).2 ++ ">") ∧
    (pyStrM PVal.vnone).2 = "None" ∧
    (pyStrM (PVal.vpair PVal.vnone PVal.vnone)).1
      = PVal.vpair (.vstr "None") (.vstr "None") ∧
    (pyStrM (PVal.vpair a b)).1 = PVal.vpair a b := by
  refine ⟨fun x y => rfl, rfl, rfl, ?_⟩
  exact pyStrM_preserves (PVal.vpair a b) h

theorem c7_pair_str_amended_witness :
    (pyStrM (PVal.vpair (.vstr "x") (.vint 3))).1
      = PVal.vpair (.vstr "x") (.vint 3) := by
  have h := c7_pair_str_amended (.vstr "x") (.vint 3) (by decide)
  exact h.2.2.2

/-! ## C5: the Frequency comparator

A genuine Frequency subject is a str or a TwoGram (the constructor enforces
it), and a TwoGram slot is a token or None, so the comparator is settled
over subjects of those shapes; anything else a Frequency may be compared to
is drawn from the dynamic universe `PVal`.
-/

/-- `_compare_tokens`: None sorts below any token; two tokens compare by
equality then by the token order. -/
def compareTokens : Option String → Option String → Int
  | none, none => 0
  | none, some _ => -1
  | some _, none => 1
  | some a, some b => if a = b then 0 else if strLt a b then -1 else 1

/-- A TwoGram as the Frequency comparator sees it: two optional tokens. -/
structure TwoGramS where
  o1 : Option String
  o2 : Option String
deriving DecidableEq, Repr

/-- `TwoGram._compare_token_pairs` between two TwoGrams: the first-slot
comparison decides unless it is zero (falsy), in which case the second slots
decide. -/
def compareTokenPairs (g h : TwoGramS) : Int :=
  if compareTokens g.o1 h.o1 ≠ 0 then compareTokens g.o1 h.o1
  else compareTokens g.o2 h.o2

/-- A Frequency subject: a token string or a TwoGram. -/
inductive Subj where
  | str : String → Subj
  | two : TwoGramS → Subj
deriving DecidableEq, Repr

/-- The token equality test `self._token == other._token` inside the
comparator: strings compare structurally; `TwoGram.__eq__` compares slots
and rejects a non-TwoGram; a string never equals a TwoGram. -/
def subjEq : Subj → Subj → Bool
  | .str a, .str b => decide (a = b)
  | .two g, .two h => decide (g.o1 = h.o1) && decide (g.o2 = h.o2)
  | _, _ => false

/-- The token comparison `self._token < other._token` inside the comparator:
two strings use the string order; for a string against a TwoGram, the string
lt returns NotImplemented and Python evaluates the reflected
`TwoGram.__gt__(twoGram, str)`, whose comparator yields 1 for a non-TwoGram
argument, so the result is True; a TwoGram against a string asks
`TwoGram.__lt__(str)`, and the comparator again yields 1, not -1: False;
two TwoGrams compare their comparator result with -1. -/
def subjLt : Subj → Subj → Bool
  | .str a, .str b => strLt a b
  | .str _, .two _ => true
  | .two _, .str _ => false
  | .two g, .two h => decide (compareTokenPairs g h = -1)

/-- A Frequency record as the comparator sees it: subject and int count. -/
structure FreqS where
  tok : Subj
  cnt : Int
deriving DecidableEq, Repr

/-- `Frequency._compare_frequency`: 1 for None or any non-Frequency other;
for another Frequency, the higher count sorts first, and on equal counts
the token equality and token order decide. -/
def compareFrequencyS (f : FreqS) (other : Sum FreqS PVal) : Int :=
  match other with
  | .inr _ => 1
  | .inl g =>
      if g.cnt < f.cnt then -1
      else if f.cnt = g.cnt then
        if subjEq f.tok g.tok then 0
        else if subjLt f.tok g.tok then -1
        else 1
      else 1

/-- `Frequency.__lt__`. -/
def freqLtS (f : FreqS) (o : Sum FreqS PVal) : Bool :=
  decide (compareFrequencyS f o = -1)

/-- `Frequency.__le__`. -/
def freqLeS (f : FreqS) (o : Sum FreqS PVal) : Bool :=
  decide (compareFrequencyS f o ≤ 0)

/-- `Frequency.__gt__`. -/
def freqGtS (f : FreqS) (o : Sum FreqS PVal) : Bool :=
  decide (compareFrequencyS f o = 1)

/-- `Frequency.__ge__`. -/
def freqGeS (f : FreqS) (o : Sum FreqS PVal) : Bool :=
  decide (0 ≤ compareFrequencyS f o)

/-- `Frequency.__eq__`. -/
def freqEqS (f : FreqS) (o : Sum FreqS PVal) : Bool :=
  decide (compareFrequencyS f o = 0)

/-- `Frequency.__ne__`. -/
def freqNeS (f : FreqS) (o : Sum FreqS PVal) : Bool :=
  decide (compareFrequencyS f o ≠ 0)

theorem subjEq_not_lt (s t : Subj) (h : subjEq s t = true) : subjLt s t = false := by
  cases s with
  | str a =>
      cases t with
      | str b =>
          rw [subjEq, decide_eq_true_iff] at h
          subst h
          rw [subjLt]
          cases hlt : strLt a a with
          | false => rfl
          | true =>
              rw [strLt_iff] at hlt
              exact absurd hlt (lt_irrefl a)
      | two h2 => cases h
  | two g =>
      cases t with
      | str b => cases h
      | two h2 =>
          rw [subjEq, Bool.and_eq_true, decide_eq_true_iff, decide_eq_true_iff] at h
          have hz : ∀ x : Option String, compareTokens x x = 0 := by
            intro x
            cases x with
            | none => rfl
            | some a => simp [compareTokens]
          rw [subjLt]
          simp [compareTokenPairs, h.1, h.2, hz]

/-- C5: `Frequency` lt against another Frequency holds exactly when the
count is higher, or the counts are equal and the subject is lower in the
subject order; and the six comparisons of a Frequency against None or any
non-Frequency value all treat the Frequency itself as the greater side. -/
theorem c5_frequency_order_spec (f g : FreqS) (x : PVal) :
    (freqLtS f (Sum.inl g) = true
      ↔ (g.cnt < f.cnt ∨ (f.cnt = g.cnt ∧ subjLt f.tok g.tok = true))) ∧
    freqLtS f (Sum.inr x) = false ∧
    freqLeS f (Sum.inr x) = false ∧
    freqGtS f (Sum.inr x) = true ∧
    freqGeS f (Sum.inr x) = true ∧
    freqEqS f (Sum.inr x) = false ∧
    freqNeS f (Sum.inr x) = true := by
  refine ⟨?_, rfl, rfl, rfl, rfl, rfl, rfl⟩
  unfold freqLtS
  have hred : compareFrequencyS f (Sum.inl g)
      = (if g.cnt < f.cnt then -1
        else if f.cnt = g.cnt then
          if subjEq f.tok g.tok then 0
          else if subjLt f.tok g.tok then (-1 : Int) else 1
        else 1) := rfl
  rw [hred, decide_eq_true_iff]
  split_ifs with h1 h2 h3 h4
  · simp [h1]
  · rw [false_iff]
    rintro (h | ⟨_, h⟩)
    · exact h1 h
    · rw [subjEq_not_lt _ _ h3] at h
      cases h
  · simp [h1, h2, h4]
  · rw [false_iff]
    rintro (h | ⟨_, h⟩)
    · exact h1 h
    · exact h4 h
  · rw [false_iff]
    rintro (h | ⟨h, _⟩)
    · exact h1 h
    · exact h2 h

end IRDA
